import Mathlib

/-!
Verification of the streaming training-batch generator of the
PytorchWaveNetVocoder repository (src/train.py), via a shallow embedding.

Modelling conventions:
* Python sequences (numpy arrays along axis 0) are Lean `List`s; the sample
  type and the feature-frame type are type parameters, since none of the
  verified code paths computes with the numeric values.
* Python strings are `List Char`, so that `str.replace` can be embedded as a
  structurally recursive function that the kernel can evaluate.
* The buffer-drain `while` loop of the generator is embedded with explicit
  fuel equal to the initial buffer length; since every iteration drops
  `batch_size` elements, this fuel is sufficient whenever `batch_size > 0`
  (the loop does not terminate in Python when `batch_size = 0`, a case the
  program never exercises).
* Tensor shape operations (`unsqueeze`, `transpose`) only reindex; the
  element sequences they carry are what the claims talk about, so windows
  are kept as lists.
-/

namespace WaveNetTrain

universe u v

variable {α : Type u} {β : Type v}

/-- `validate_length` (src/train.py lines 21-29): if `x` is shorter, truncate
`y` to `x`'s length; then (on the possibly updated `y`) if `x` is longer,
truncate `x` to `y`'s length; return the pair.  The Python `assert` compares
the two result lengths. -/
def validate_length (x : List α) (y : List β) : List α × List β :=
  let y' := if x.length < y.length then y.take x.length else y
  let x' := if x.length > y'.length then x.take y'.length else x
  (x', y')

/-- The buffer-drain loop of `custom_generator` in fixed-batch mode
(src/train.py lines 68-84): while the waveform buffer holds strictly more
than `receptive_field + batch_size` samples, slice the first
`receptive_field + batch_size` elements from both buffers, emit them as a
window, and advance both buffers by `batch_size`.  `fuel` bounds the number
of loop iterations; it is instantiated with the initial buffer length, which
dominates the true iteration count whenever `batch_size > 0`. -/
def drainLoop (receptive_field batch_size : Nat) :
    Nat → List α → List β → List (List α × List β)
  | 0, _, _ => []
  | fuel + 1, xbuf, hbuf =>
    if receptive_field + batch_size < xbuf.length then
      (xbuf.take (receptive_field + batch_size),
       hbuf.take (receptive_field + batch_size)) ::
        drainLoop receptive_field batch_size fuel
          (xbuf.drop batch_size) (hbuf.drop batch_size)
    else []

/-- The windows emitted from one (already aligned) file in fixed-batch mode:
the buffers are seeded with the whole waveform and feature sequences
(src/train.py lines 63-66) and drained by `drainLoop`. -/
def fixedModeWindows (receptive_field batch_size : Nat)
    (x : List α) (h : List β) : List (List α × List β) :=
  drainLoop receptive_field batch_size x.length x h

/-- One Training Batch as yielded by `custom_generator`: `batch_x` carries
the element sequence of `x_[:-1]`, `batch_h` that of `h_[:-1]`, and
`batch_target` that of `x_[1:]` (src/train.py lines 77-81 and 93-97). -/
structure Batch (α : Type u) (β : Type v) where
  batch_x : List α
  batch_h : List β
  batch_target : List α
deriving DecidableEq

/-- Build the Training Batch from a window pair, i.e. the slicing of
src/train.py lines 77-79 (identical to lines 93-95): input is the window
without its last element, target is the window without its first element,
and the feature part drops its last frame. -/
def mkBatch (x_ : List α) (h_ : List β) : Batch α β :=
  ⟨x_.dropLast, h_.dropLast, x_.drop 1⟩

/-- All Training Batches emitted from one aligned file in fixed-batch mode. -/
def fixedModeBatches (receptive_field batch_size : Nat)
    (x : List α) (h : List β) : List (Batch α β) :=
  (fixedModeWindows receptive_field batch_size x h).map fun w => mkBatch w.1 w.2

/-- All Training Batches emitted for one file pair: align the two sequences
with `validate_length` (line 59), then either drain fixed-size windows
(lines 62-84, when `batch_size` is configured) or yield the single
whole-utterance batch (lines 87-97). -/
def fileBatches : Nat → Option Nat → List α → List β → List (Batch α β)
  | R, some bs, x, h =>
      fixedModeBatches R bs (validate_length x h).1 (validate_length x h).2
  | _, none, x, h =>
      [mkBatch (validate_length x h).1 (validate_length x h).2]

/-- The Training Batches emitted during one full pass over the corpus in a
given file order (the `for wavfile, featfile in zip(...)` loop,
src/train.py lines 50-97). -/
def passBatches (receptive_field : Nat) (batch_size : Option Nat)
    (corpus : List (List α × List β)) : List (Batch α β) :=
  corpus.flatMap fun p => fileBatches receptive_field batch_size p.1 p.2

end WaveNetTrain

namespace WaveNetTrain

variable {α : Type u} {β : Type v}

/-- Full characterization of `validate_length`: both results are initial
segments of the inputs, truncated to the shared minimum length. -/
theorem validate_length_spec (x : List α) (y : List β) :
    (validate_length x y).1 = x.take (min x.length y.length) ∧
    (validate_length x y).2 = y.take (min x.length y.length) ∧
    (validate_length x y).1.length = min x.length y.length ∧
    (validate_length x y).2.length = min x.length y.length ∧
    (validate_length x y).1.length = (validate_length x y).2.length := by
  have hx : (validate_length x y).1 = x.take (min x.length y.length) := by
    unfold validate_length
    by_cases h : x.length < y.length
    · have h1 : ¬ x.length > (y.take x.length).length := by
        rw [List.length_take]
        omega
      simp only [if_pos h, if_neg h1]
      rw [show min x.length y.length = x.length by omega, List.take_length]
    · simp only [if_neg h]
      by_cases h2 : x.length > y.length
      · simp only [if_pos h2]
        rw [show min x.length y.length = y.length by omega]
      · simp only [if_neg h2]
        rw [show min x.length y.length = x.length by omega, List.take_length]
  have hy : (validate_length x y).2 = y.take (min x.length y.length) := by
    unfold validate_length
    by_cases h : x.length < y.length
    · simp only [if_pos h]
      rw [show min x.length y.length = x.length by omega]
    · simp only [if_neg h]
      rw [show min x.length y.length = y.length by omega, List.take_length]
  have len1 : (validate_length x y).1.length = min x.length y.length := by
    rw [hx, List.length_take]
    omega
  have len2 : (validate_length x y).2.length = min x.length y.length := by
    rw [hy, List.length_take]
    omega
  exact ⟨hx, hy, len1, len2, by omega⟩

/-- C3: the Length Aligner returns two sequences both of length
`min m n`, each an initial segment of its original — truncation from the
tail, never padding — and the post-trim assertion `len(x) == len(y)` never
fails. -/
theorem C3_validate_length (x : List α) (y : List β) :
    (validate_length x y).1 = x.take (min x.length y.length) ∧
    (validate_length x y).2 = y.take (min x.length y.length) ∧
    (validate_length x y).1.length = min x.length y.length ∧
    (validate_length x y).2.length = min x.length y.length ∧
    (validate_length x y).1.length = (validate_length x y).2.length :=
  validate_length_spec x y

/-- The drain loop emits nothing when the buffer is not strictly longer than
`receptive_field + batch_size`, whatever the fuel. -/
theorem drainLoop_nil (R B fuel : Nat) (xbuf : List α) (hbuf : List β)
    (h : ¬ R + B < xbuf.length) :
    drainLoop R B fuel xbuf hbuf = [] := by
  cases fuel with
  | zero => rfl
  | succ f => simp only [drainLoop, if_neg h]

/-- Any fuel at least the buffer length is enough for the drain loop when
`batch_size > 0`: the result does not depend on it. -/
theorem drainLoop_fuel (R B : Nat) (hB : 0 < B) :
    ∀ fuel₁ : Nat, ∀ {fuel₂ : Nat} {xbuf : List α} {hbuf : List β},
      xbuf.length ≤ fuel₁ → xbuf.length ≤ fuel₂ →
      drainLoop R B fuel₁ xbuf hbuf = drainLoop R B fuel₂ xbuf hbuf := by
  intro fuel₁
  induction fuel₁ with
  | zero =>
    intro fuel₂ xbuf hbuf h1 h2
    have hg : ¬ R + B < xbuf.length := by omega
    rw [drainLoop_nil R B 0 xbuf hbuf hg, drainLoop_nil R B fuel₂ xbuf hbuf hg]
  | succ f ih =>
    intro fuel₂ xbuf hbuf h1 h2
    by_cases hg : R + B < xbuf.length
    · cases fuel₂ with
      | zero => omega
      | succ f₂ =>
        simp only [drainLoop, if_pos hg]
        congr 1
        exact ih (by rw [List.length_drop]; omega) (by rw [List.length_drop]; omega)
    · rw [drainLoop_nil _ _ _ _ _ hg, drainLoop_nil _ _ _ _ _ hg]

/-- Unfolding law for the per-file windows in fixed-batch mode: one loop
iteration slices a window of `R + B` elements off the front and advances
both buffers by `B`. -/
theorem fixedModeWindows_eq (R B : Nat) (hB : 0 < B) (x : List α) (h : List β) :
    fixedModeWindows R B x h =
      if R + B < x.length then
        (x.take (R + B), h.take (R + B)) ::
          fixedModeWindows R B (x.drop B) (h.drop B)
      else [] := by
  by_cases hg : R + B < x.length
  · rw [if_pos hg]
    obtain ⟨n, hn⟩ : ∃ n, x.length = n + 1 := ⟨x.length - 1, by omega⟩
    unfold fixedModeWindows
    rw [hn]
    simp only [drainLoop, if_pos hg]
    congr 1
    refine drainLoop_fuel R B hB n ?_ ?_
    · rw [List.length_drop]
      omega
    · rw [List.length_drop]
  · rw [if_neg hg]
    exact drainLoop_nil R B x.length x h hg

/-- Exact window count of the drain loop: `ceil((L - R - B) / B)`, written
with truncating division as `(L - R - 1) / B`, when `L > R + B`; else 0. -/
theorem fixedModeWindows_length (R B : Nat) (hB : 0 < B) (x : List α) (h : List β) :
    (fixedModeWindows R B x h).length =
      if R + B < x.length then (x.length - R - 1) / B else 0 := by
  generalize hL : x.length = L
  induction L using Nat.strong_induction_on generalizing x h with
  | _ L ih =>
    rw [fixedModeWindows_eq R B hB, hL]
    by_cases hg : R + B < L
    · rw [if_pos hg, if_pos hg, List.length_cons]
      have hdrop : (x.drop B).length = L - B := by rw [List.length_drop, hL]
      rw [ih (L - B) (by omega) (x.drop B) (h.drop B) hdrop]
      by_cases h2 : R + B < L - B
      · rw [if_pos h2, show L - R - 1 = (L - B - R - 1) + B by omega,
           Nat.add_div_right _ hB]
      · rw [if_neg h2, show L - R - 1 = (L - R - 1) by rfl]
        have : (L - R - 1) / B = 1 :=
          Nat.div_eq_of_lt_le (by omega) (by omega)
        omega
    · rw [if_neg hg, if_neg hg, List.length_nil]

/-- Every window the drain loop emits from equal-length buffers consists of
exactly `R + B` samples and `R + B` feature frames. -/
theorem drainLoop_mem_lengths (R B : Nat) :
    ∀ (fuel : Nat) (xbuf : List α) (hbuf : List β) (w : List α × List β),
      hbuf.length = xbuf.length →
      w ∈ drainLoop R B fuel xbuf hbuf →
      w.1.length = R + B ∧ w.2.length = R + B := by
  intro fuel
  induction fuel with
  | zero =>
    intro _ _ _ _ hmem
    simp [drainLoop] at hmem
  | succ f ih =>
    intro xbuf hbuf w hlen hmem
    by_cases hg : R + B < xbuf.length
    · simp only [drainLoop, if_pos hg, List.mem_cons] at hmem
      rcases hmem with rfl | hmem
      · constructor <;> (rw [List.length_take]; omega)
      · exact ih _ _ _ (by rw [List.length_drop, List.length_drop, hlen]) hmem
    · simp only [drainLoop, if_neg hg, List.not_mem_nil] at hmem

end WaveNetTrain

namespace WaveNetTrain

variable {α : Type u} {β : Type v}

/-- C1 counterexample: an aligned waveform of length `L = 8` with
`receptive_field = 1` and `batch_size = 2` satisfies `L > R + B`, yet the
generator emits 3 batches while the claimed formula `floor((L - R - B) / B)`
gives `floor(5 / 2) = 2`. -/
theorem C1_counterexample :
    1 + 2 < (List.range 8).length ∧
    (fixedModeBatches 1 2 (List.range 8) (List.range 8)).length ≠
      ((List.range 8).length - 1 - 2) / 2 := by
  constructor
  · decide
  · decide

/-- C1 amended: in fixed-batch mode, the number of Training Batches emitted
from one aligned waveform of length `L` is `ceil((L - R - B) / B)` — equal
to `(L - R - 1) / B` in truncating division — when `L > R + B`, and zero
otherwise.  (The original `floor((L - R - B) / B)` undercounts by one
whenever `B` does not divide `L - R - B`.) -/
theorem C1_window_count (R B : Nat) (hB : 0 < B) (x : List α) (h : List β) :
    (fixedModeBatches R B x h).length =
      if R + B < x.length then (x.length - R - 1) / B else 0 := by
  unfold fixedModeBatches
  rw [List.length_map]
  exact fixedModeWindows_length R B hB x h

/-- Witness for C1's amended theorem at `R = 1`, `B = 2`, `L = 8`. -/
theorem C1_window_count_witness :
    (fixedModeBatches 1 2 (List.range 8) (List.range 8)).length =
      if 1 + 2 < (List.range 8).length
      then ((List.range 8).length - 1 - 1) / 2 else 0 :=
  C1_window_count 1 2 (by decide) (List.range 8) (List.range 8)

/-- C2: with one aligned file of 50000 samples, `receptive_field = 2000` and
`batch_size = 20000`, the buffers advance by exactly `batch_size` per
emission: the first window covers samples `[0, 22000)`, the second covers
`[20000, 42000)` (not `[22000, 44000)`), no third window is emitted, and the
two consecutive windows overlap in exactly the `receptive_field = 2000`
positions `[20000, 22000)`. -/
theorem C2_overlap_scenario (x : List α) (h : List β) (hx : x.length = 50000) :
    fixedModeWindows 2000 20000 x h =
      [(x.take 22000, h.take 22000),
       ((x.drop 20000).take 22000, (h.drop 20000).take 22000)] ∧
    (x.take 22000).drop 20000 = ((x.drop 20000).take 22000).take 2000 := by
  constructor
  · rw [fixedModeWindows_eq 2000 20000 (by norm_num),
        fixedModeWindows_eq 2000 20000 (by norm_num),
        fixedModeWindows_eq 2000 20000 (by norm_num)]
    have l1 : 2000 + 20000 < x.length := by omega
    have l2 : 2000 + 20000 < (x.drop 20000).length := by
      rw [List.length_drop]
      omega
    have l3 : ¬ 2000 + 20000 < ((x.drop 20000).drop 20000).length := by
      rw [List.length_drop, List.length_drop]
      omega
    rw [if_pos l1, if_pos l2, if_neg l3]
  · rw [List.drop_take, List.take_take]
    norm_num

/-- Witness for C2 on a concrete 50000-sample corpus file. -/
theorem C2_overlap_scenario_witness :
    (fixedModeWindows 2000 20000
        (List.replicate 50000 (0 : Nat)) (List.replicate 50000 (0 : Nat)) =
      [((List.replicate 50000 (0 : Nat)).take 22000,
        (List.replicate 50000 (0 : Nat)).take 22000),
       (((List.replicate 50000 (0 : Nat)).drop 20000).take 22000,
        ((List.replicate 50000 (0 : Nat)).drop 20000).take 22000)]) ∧
    ((List.replicate 50000 (0 : Nat)).take 22000).drop 20000 =
      (((List.replicate 50000 (0 : Nat)).drop 20000).take 22000).take 2000 :=
  C2_overlap_scenario _ _ (List.length_replicate 50000 0)

/-- C9: every batch yielded in fixed-batch mode is full-length — the input
window, the feature window and the target all have exactly
`receptive_field + batch_size - 1` elements — and a file whose aligned
length equals `receptive_field + batch_size` exactly yields zero batches
(the drain-loop guard is strict). -/
theorem C9_full_length (R B : Nat) (x : List α) (h : List β) :
    (∀ b ∈ fileBatches R (some B) x h,
        b.batch_x.length = R + B - 1 ∧
        b.batch_h.length = R + B - 1 ∧
        b.batch_target.length = R + B - 1) ∧
    (min x.length h.length = R + B → fileBatches R (some B) x h = []) := by
  obtain ⟨hx1, hx2, hlen1, hlen2, hleq⟩ := validate_length_spec x h
  constructor
  · intro b hb
    simp only [fileBatches, fixedModeBatches, List.mem_map] at hb
    obtain ⟨w, hw, rfl⟩ := hb
    have hww :=
      drainLoop_mem_lengths R B (validate_length x h).1.length
        (validate_length x h).1 (validate_length x h).2 w hleq.symm hw
    refine ⟨?_, ?_, ?_⟩
    · show w.1.dropLast.length = R + B - 1
      rw [List.length_dropLast, hww.1]
    · show w.2.dropLast.length = R + B - 1
      rw [List.length_dropLast, hww.2]
    · show (w.1.drop 1).length = R + B - 1
      rw [List.length_drop, hww.1]
  · intro hmin
    have hguard : ¬ R + B < (validate_length x h).1.length := by
      rw [hlen1, hmin]
      omega
    simp only [fileBatches, fixedModeBatches, fixedModeWindows]
    rw [drainLoop_nil _ _ _ _ _ hguard, List.map_nil]

/-- Witness for C9: at `R = 1`, `B = 2` an aligned file of length 4 yields
the single full-length batch `([0,1], [0,1], [1,2])`, and an aligned file of
length exactly `R + B = 3` yields no batch at all. -/
theorem C9_full_length_witness :
    ((Batch.mk [0, 1] [0, 1] [1, 2] : Batch Nat Nat).batch_x.length = 1 + 2 - 1 ∧
     (Batch.mk [0, 1] [0, 1] [1, 2] : Batch Nat Nat).batch_h.length = 1 + 2 - 1 ∧
     (Batch.mk [0, 1] [0, 1] [1, 2] : Batch Nat Nat).batch_target.length = 1 + 2 - 1) ∧
    fileBatches 1 (some 2) (List.range 3) (List.range 3) = ([] : List (Batch Nat Nat)) :=
  ⟨(C9_full_length 1 2 (List.range 4) (List.range 4)).1 _ (by decide),
   (C9_full_length 1 2 (List.range 3) (List.range 3)).2 (by decide)⟩

/-- The slicing of src/train.py lines 77-79: since `batch_target = x_[1:]`
and `batch_x = x_[:-1]` come from the same raw slice, the target at
position `i` is the input at position `i + 1`. -/
theorem mkBatch_shift (x_ : List α) (h_ : List β) (i : Nat)
    (hi : i + 1 < x_.dropLast.length) :
    (mkBatch (β := β) x_ h_).batch_target[i]? = (mkBatch x_ h_).batch_x[i + 1]? := by
  have hlen : i + 1 < x_.length - 1 := by
    rwa [List.length_dropLast] at hi
  show (x_.drop 1)[i]? = x_.dropLast[i + 1]?
  rw [List.getElem?_drop, List.dropLast_eq_take, List.getElem?_take, if_pos hlen,
     Nat.add_comm]

/-- C4: every Training Batch emitted by the generator, in fixed-batch mode
and in whole-utterance mode alike, satisfies
`target_window[i] == input_window[i+1]` on the raw samples, at every index
where both sides are in range: the target is the input window shifted by
one sample. -/
theorem C4_shift_by_one (R : Nat) (B : Option Nat) (x : List α) (h : List β)
    (b : Batch α β) (hb : b ∈ fileBatches R B x h)
    (i : Nat) (hi : i + 1 < b.batch_x.length) :
    b.batch_target[i]? = b.batch_x[i + 1]? := by
  obtain ⟨p, q, rfl⟩ : ∃ p q, b = mkBatch p q := by
    cases B with
    | none =>
      simp only [fileBatches, List.mem_singleton] at hb
      exact ⟨_, _, hb⟩
    | some bs =>
      simp only [fileBatches, fixedModeBatches, List.mem_map] at hb
      obtain ⟨w, _, rfl⟩ := hb
      exact ⟨w.1, w.2, rfl⟩
  exact mkBatch_shift p q i hi

/-- Witness for C4 in whole-utterance mode on the file `[0, 1, 2]`. -/
theorem C4_shift_by_one_witness :
    (Batch.mk [0, 1] [0, 1] [1, 2] : Batch Nat Nat).batch_target[0]? =
      (Batch.mk [0, 1] [0, 1] [1, 2] : Batch Nat Nat).batch_x[0 + 1]? :=
  C4_shift_by_one 1 none [0, 1, 2] [0, 1, 2] _ (by decide) 0 (by decide)

/-- Productivity of the infinite generator (the `while True` loop of
src/train.py line 49).  The emission stream is pass after pass over the
corpus; a re-shuffle (lines 100-103) only permutes the corpus and
`passBatches_perm_length` shows a pass's batch count is invariant under
that, so within `k` passes the generator has emitted exactly
`k * (passBatches ...).length` batches.  The generator is productive when
every request for `N` batches is eventually served. -/
def generatorProductive (R : Nat) (B : Option Nat)
    (corpus : List (List α × List β)) : Prop :=
  ∀ N : Nat, ∃ k : Nat, N ≤ k * (passBatches R B corpus).length

/-- Reordering the corpus (as a re-shuffle does) never changes how many
batches one full pass emits. -/
theorem passBatches_perm_length (R : Nat) (B : Option Nat)
    {c₁ c₂ : List (List α × List β)} (hp : c₁.Perm c₂) :
    (passBatches R B c₁).length = (passBatches R B c₂).length := by
  unfold passBatches
  exact (List.Perm.flatMap_right _ hp).length_eq

/-- A buffer strictly longer than `R + B` always produces a first window. -/
theorem fixedModeWindows_ne_nil (R B : Nat) (x : List α) (h : List β)
    (hg : R + B < x.length) :
    fixedModeWindows R B x h ≠ [] := by
  unfold fixedModeWindows
  obtain ⟨n, hn⟩ : ∃ n, x.length = n + 1 := ⟨x.length - 1, by omega⟩
  rw [hn]
  simp only [drainLoop, if_pos hg]
  exact List.cons_ne_nil _ _

/-- C5 counterexample: the corpus holding the single file pair of aligned
length 5 with `receptive_field = 2`, `batch_size = 3` is non-empty, yet the
fixed-batch generator emits zero batches on every pass (5 is not strictly
greater than 2 + 3), so the request for even one batch never succeeds: the
Python loop spins forever without yielding.  A non-empty corpus is not
enough for productivity. -/
theorem C5_counterexample :
    ([(List.range 5, List.range 5)] : List (List Nat × List Nat)) ≠ [] ∧
    ¬ generatorProductive 2 (some 3) [(List.range 5, List.range 5)] := by
  refine ⟨by decide, ?_⟩
  intro hp
  obtain ⟨k, hk⟩ := hp 1
  have hlen : (passBatches 2 (some 3)
      [(List.range 5, List.range 5)]).length = 0 := by decide
  rw [hlen, Nat.mul_zero] at hk
  omega

/-- C5 amended: the generator is productive forever — every request for `N`
batches succeeds — for a non-empty corpus in whole-utterance mode, and in
fixed-batch mode whenever at least one file pair's aligned length strictly
exceeds `receptive_field + batch_size` (otherwise every pass emits nothing
and a batch request starves). -/
theorem C5_productive (R : Nat) (corpus : List (List α × List β)) :
    (corpus ≠ [] → generatorProductive R none corpus) ∧
    (∀ B : Nat,
      (∃ p ∈ corpus, R + B < min p.1.length p.2.length) →
      generatorProductive R (some B) corpus) := by
  have productive_of_pos : ∀ B : Option Nat,
      0 < (passBatches R B corpus).length → generatorProductive R B corpus := by
    intro B hpos N
    exact ⟨N, Nat.le_mul_of_pos_right N hpos⟩
  constructor
  · intro hne
    obtain ⟨p, hp⟩ := List.exists_mem_of_ne_nil corpus hne
    have hmem : mkBatch (validate_length p.1 p.2).1 (validate_length p.1 p.2).2 ∈
        passBatches R none corpus :=
      List.mem_flatMap.2 ⟨p, hp, by simp [fileBatches]⟩
    exact productive_of_pos none (List.length_pos.2 (List.ne_nil_of_mem hmem))
  · intro B hex
    obtain ⟨p, hp, hlong⟩ := hex
    have hal := validate_length_spec p.1 p.2
    have hg : R + B < (validate_length p.1 p.2).1.length := by
      rw [hal.2.2.1]
      omega
    have hwin := fixedModeWindows_ne_nil R B
      (validate_length p.1 p.2).1 (validate_length p.1 p.2).2 hg
    obtain ⟨w, hw⟩ := List.exists_mem_of_ne_nil _ hwin
    have hmem : mkBatch w.1 w.2 ∈ passBatches R (some B) corpus := by
      refine List.mem_flatMap.2 ⟨p, hp, ?_⟩
      show mkBatch w.1 w.2 ∈ fileBatches R (some B) p.1 p.2
      simp only [fileBatches, fixedModeBatches, List.mem_map]
      exact ⟨w, hw, rfl⟩
    exact productive_of_pos (some B) (List.length_pos.2 (List.ne_nil_of_mem hmem))

/-- Witness for C5's amended theorem on the one-file corpus of aligned
length 6 with `R = 1`: productive in whole-utterance mode and, with
`B = 2` (6 > 1 + 2), in fixed-batch mode. -/
theorem C5_productive_witness :
    generatorProductive 1 none [(List.range 6, List.range 6)] ∧
    generatorProductive 1 (some 2) [(List.range 6, List.range 6)] :=
  ⟨(C5_productive 1 [(List.range 6, List.range 6)]).1 (by decide),
   (C5_productive 1 [(List.range 6, List.range 6)]).2 2
     ⟨(List.range 6, List.range 6), by decide, by decide⟩⟩

end WaveNetTrain

namespace WaveNetTrain

variable {M : Type u} {O : Type v}

/-- A checkpoint as written by `save_checkpoint` (src/train.py lines
106-115): model state, optimizer state, and the iteration counter.  The
model and optimizer states are opaque external collaborators, so they are
type parameters. -/
structure Checkpoint (M : Type u) (O : Type v) where
  model : M
  optimizer : O
  iterations : Nat

/-- `save_checkpoint` (lines 106-115) persists exactly the dictionary
`{model, optimizer, iterations}`; `torch.save`/`torch.load` round-trip the
stored value, so saving is embedded as constructing the record. -/
def save_checkpoint (model : M) (optimizer : O) (iterations : Nat) :
    Checkpoint M O :=
  ⟨model, optimizer, iterations⟩

/-- The resume path of the driver (lines 204-208): loading a checkpoint
reads back the three stored components. -/
def load_checkpoint (c : Checkpoint M O) : M × O × Nat :=
  (c.model, c.optimizer, c.iterations)

/-- The training loop's index sequence (line 216,
`for i in six.moves.range(iterations, n_iters)`): the half-open interval
`[iterations, n_iters)`. -/
def trainLoopIndices (iterations n_iters : Nat) : List Nat :=
  List.range' iterations (n_iters - iterations)

/-- The loop indices already executed when a checkpoint carrying counter `k`
is written in a run started from iteration 0: `save_checkpoint` is invoked
with `i + 1` at the end of the loop body for index `i` (lines 242-243), and
with `n_iters` after the body for index `n_iters - 1` (line 246), so the
checkpoint with counter `k` is written just after the body for index
`k - 1` finished.  The completed indices are `trainLoopIndices 0 k =
[0, ..., k-1]`. -/
def indicesRunBeforeSave (k : Nat) : List Nat :=
  trainLoopIndices 0 k

/-- C6 counterexample: saving at counter `k = 2` and resuming with
`n_iters = 5`, the loaded counter is 2 and the resumed loop does start at
index 2 — but index 2 is *not* among the indices executed before the save
(those are `[0, 1]`), so iteration 2 is executed for the first time after
resume, not re-executed.  The claim's "iteration k is re-executed" is
false. -/
theorem C6_counterexample :
    (load_checkpoint (save_checkpoint (0 : Nat) (0 : Nat) 2)).2.2 = 2 ∧
    (trainLoopIndices 2 5).head? = some 2 ∧
    2 ∈ trainLoopIndices 2 5 ∧
    2 ∉ indicesRunBeforeSave 2 := by
  decide

/-- C6 amended: saving a checkpoint at counter `k` then loading yields the
counter exactly `k`, and resumed training starts its loop at index `k`
(running while `i < n_iters`); since the save with counter `k` happens after
completing loop index `k - 1`, the pre-save executed indices `[0, ..., k-1]`
and the post-resume indices `[k, ..., n_iters-1]` are disjoint and
concatenate to the full fresh run: no iteration is re-executed and none is
skipped. -/
theorem C6_resume (m : M) (o : O) (k n : Nat) (hk : k ≤ n) :
    (load_checkpoint (save_checkpoint m o k)).2.2 = k ∧
    (k < n → (trainLoopIndices k n).head? = some k) ∧
    indicesRunBeforeSave k ++ trainLoopIndices k n = trainLoopIndices 0 n ∧
    ∀ i ∈ indicesRunBeforeSave k, i ∉ trainLoopIndices k n := by
  refine ⟨rfl, ?_, ?_, ?_⟩
  · intro hlt
    obtain ⟨d, hd⟩ : ∃ d, n - k = d + 1 := ⟨n - k - 1, by omega⟩
    unfold trainLoopIndices
    rw [hd, List.range'_succ]
    rfl
  · unfold indicesRunBeforeSave trainLoopIndices
    have happ := List.range'_append 0 k (n - k) 1
    simp only [Nat.one_mul, Nat.zero_add] at happ
    rw [show k - 0 = k from rfl, show n - 0 = n from rfl, happ,
       show n - k + k = n by omega]
  · intro i hi hi2
    unfold indicesRunBeforeSave trainLoopIndices at hi
    unfold trainLoopIndices at hi2
    rw [List.mem_range'_1] at hi hi2
    omega

/-- Witness for C6's amended theorem at `k = 2`, `n_iters = 5`. -/
theorem C6_resume_witness :
    (load_checkpoint (save_checkpoint (0 : Nat) (0 : Nat) 2)).2.2 = 2 ∧
    (2 < 5 → (trainLoopIndices 2 5).head? = some 2) ∧
    indicesRunBeforeSave 2 ++ trainLoopIndices 2 5 = trainLoopIndices 0 5 ∧
    ∀ i ∈ indicesRunBeforeSave 2, i ∉ trainLoopIndices 2 5 :=
  C6_resume 0 0 2 5 (by decide)

end WaveNetTrain

namespace WaveNetTrain

/-- Python `str.replace(pat, rep)` over strings modelled as `List Char`:
scan left to right; at each position, if the pattern starts here, emit the
replacement and resume after the matched occurrence (occurrences do not
overlap), otherwise emit the character and move on.  `fuel` bounds the scan;
each step consumes at least one character for a non-empty pattern, so the
string length is enough fuel. -/
def replaceLoop (pat rep : List Char) : Nat → List Char → List Char
  | 0, s => s
  | _ + 1, [] => []
  | fuel + 1, c :: rest =>
    if pat.isPrefixOf (c :: rest) then
      rep ++ replaceLoop pat rep fuel (rest.drop (pat.length - 1))
    else c :: replaceLoop pat rep fuel rest

/-- `s.replace(pat, rep)` with sufficient fuel. -/
def strReplace (s pat rep : List Char) : List Char :=
  replaceLoop pat rep s.length s

/-- The string `".wav"`. -/
def wavExt : List Char := ['.', 'w', 'a', 'v']

/-- The string `".h5"`. -/
def h5Ext : List Char := ['.', 'h', '5']

/-- src/train.py line 39: `filename.replace(".wav", ".h5")`. -/
def featName (filename : List Char) : List Char :=
  strReplace filename wavExt h5Ext

/-- src/train.py line 38: `wav_dir + "/" + filename`. -/
def wavPath (wav_dir filename : List Char) : List Char :=
  wav_dir ++ '/' :: filename

/-- src/train.py line 39: `feat_dir + "/" + filename.replace(".wav", ".h5")`. -/
def featPath (feat_dir filename : List Char) : List Char :=
  feat_dir ++ '/' :: featName filename

/-- Lexicographic comparison of Python strings by code point, the order
`sorted` uses on src/train.py line 37. -/
def strLe : List Char → List Char → Bool
  | [], _ => true
  | _ :: _, [] => false
  | a :: as, b :: bs =>
    if a < b then true else if b < a then false else strLe as bs

/-- src/train.py lines 37-39: sort the waveform file names, then build the
parallel waveform-path and feature-path lists over the same sorted names. -/
def indexCorpus (wav_dir feat_dir : List Char)
    (filenames : List (List Char)) : List (List Char) × List (List Char) :=
  ((filenames.mergeSort strLe).map (wavPath wav_dir),
   (filenames.mergeSort strLe).map (featPath feat_dir))

/-- src/train.py lines 44-46 and 101-103: `[lst[i] for i in idx]` — one
permutation drawn from `np.random.permutation`, applied to a list. -/
def applyPerm {γ : Type u} (idx : List Nat) (l : List γ) : List γ :=
  idx.filterMap fun i => l[i]?

/-- src/train.py lines 42-46: the optional initial shuffle applies the one
drawn permutation `idx` identically to both parallel lists. -/
def indexCorpusShuffled (wav_dir feat_dir : List Char)
    (filenames : List (List Char)) (shuffle : Bool) (idx : List Nat) :
    List (List Char) × List (List Char) :=
  if shuffle then
    (applyPerm idx (indexCorpus wav_dir feat_dir filenames).1,
     applyPerm idx (indexCorpus wav_dir feat_dir filenames).2)
  else indexCorpus wav_dir feat_dir filenames

/-- The list ordering in effect during pass `k` of the generator: pass 0
uses the initial shuffle, and after each full pass both lists are
re-shuffled in place by the next fresh draw `perms (k + 1)` from the random
source (src/train.py lines 99-103, mirroring lines 44-46). -/
def orderingAt {γ : Type u} {δ : Type v} (perms : Nat → List Nat)
    (wav : List γ) (feat : List δ) : Nat → List γ × List δ
  | 0 => (applyPerm (perms 0) wav, applyPerm (perms 0) feat)
  | k + 1 =>
      (applyPerm (perms (k + 1)) (orderingAt perms wav feat k).1,
       applyPerm (perms (k + 1)) (orderingAt perms wav feat k).2)

/-- Applying an in-bounds index list keeps one entry per index. -/
theorem applyPerm_length {γ : Type u} (idx : List Nat) (l : List γ)
    (h : ∀ i ∈ idx, i < l.length) :
    (applyPerm idx l).length = idx.length := by
  induction idx with
  | nil => rfl
  | cons i rest ih =>
    have hi : i < l.length := h i (List.mem_cons_self i rest)
    simp only [applyPerm, List.filterMap_cons, List.getElem?_eq_getElem hi]
    simp only [applyPerm] at ih
    rw [List.length_cons, ih fun j hj => h j (List.mem_cons_of_mem i hj)]
    rfl

/-- Selecting positions `0, ..., n-1` in order reproduces the list. -/
theorem applyPerm_range {γ : Type u} (l : List γ) :
    applyPerm (List.range l.length) l = l := by
  induction l with
  | nil => rfl
  | cons x xs ih =>
    show List.filterMap (fun i => (x :: xs)[i]?) (List.range (xs.length + 1)) =
      x :: xs
    rw [List.range_succ_eq_map]
    simp only [List.filterMap_cons, List.filterMap_map]
    have hcomp : ((fun i => (x :: xs)[i]?) ∘ Nat.succ) = fun i => xs[i]? := by
      funext i
      exact List.getElem?_cons_succ
    simp only [List.getElem?_cons_zero, hcomp]
    simp only [applyPerm] at ih
    rw [ih]

/-- A permuted selection is a permutation of the list itself. -/
theorem applyPerm_perm {γ : Type u} (idx : List Nat) (l : List γ)
    (hidx : idx.Perm (List.range l.length)) :
    (applyPerm idx l).Perm l := by
  have h := hidx.filterMap fun i => l[i]?
  rw [show List.filterMap (fun i => l[i]?) (List.range l.length) =
      applyPerm (List.range l.length) l from rfl, applyPerm_range] at h
  exact h

/-- Applying the same index list to two equal-length lists commutes with
pairing them up. -/
theorem applyPerm_zip {γ : Type u} {δ : Type v} (idx : List Nat)
    (w : List γ) (f : List δ) (hlen : f.length = w.length) :
    (applyPerm idx w).zip (applyPerm idx f) = applyPerm idx (w.zip f) := by
  induction idx with
  | nil => rfl
  | cons i rest ih =>
    simp only [applyPerm] at ih
    by_cases hi : i < w.length
    · have hif : i < f.length := by omega
      have hiz : i < (w.zip f).length := by
        rw [List.length_zip]
        omega
      simp only [applyPerm, List.filterMap_cons,
        List.getElem?_eq_getElem hi, List.getElem?_eq_getElem hif,
        List.getElem?_eq_getElem hiz, List.getElem_zip, List.zip_cons_cons, ih]
    · have hw : w.length ≤ i := by omega
      have hf : f.length ≤ i := by omega
      have hz : (w.zip f).length ≤ i := by
        rw [List.length_zip]
        omega
      simp only [applyPerm, List.filterMap_cons,
        List.getElem?_eq_none hw, List.getElem?_eq_none hf,
        List.getElem?_eq_none hz, ih]

/-- The combined effect of one shuffle (src/train.py lines 44-46 or
101-103) on a pair of parallel equal-length lists: lengths are preserved
and the multiset of aligned pairs is preserved. -/
theorem applyPerm_pair_spec {γ : Type u} {δ : Type v} (idx : List Nat)
    (w : List γ) (f : List δ) (hlen : f.length = w.length)
    (hidx : idx.Perm (List.range w.length)) :
    (applyPerm idx w).length = w.length ∧
    (applyPerm idx f).length = f.length ∧
    ((applyPerm idx w).zip (applyPerm idx f)).Perm (w.zip f) := by
  have hmem : ∀ i ∈ idx, i < w.length := by
    intro i hi
    exact List.mem_range.1 (hidx.mem_iff.1 hi)
  have hlen1 : (applyPerm idx w).length = w.length := by
    rw [applyPerm_length idx w hmem, hidx.length_eq, List.length_range]
  have hlen2 : (applyPerm idx f).length = f.length := by
    rw [applyPerm_length idx f (fun i hi => by
        have := hmem i hi
        omega),
      hidx.length_eq, List.length_range, hlen]
  have hzl : (w.zip f).length = w.length := by
    rw [List.length_zip]
    omega
  have hzip : ((applyPerm idx w).zip (applyPerm idx f)).Perm (w.zip f) := by
    rw [applyPerm_zip idx w f hlen]
    exact applyPerm_perm idx (w.zip f) (by rw [hzl]; exact hidx)
  exact ⟨hlen1, hlen2, hzip⟩

/-- `strLe` is transitive. -/
theorem strLe_trans : ∀ a b c : List Char,
    strLe a b = true → strLe b c = true → strLe a c = true := by
  intro a
  induction a with
  | nil =>
    intro b c _ _
    rfl
  | cons x xs ih =>
    intro b c hab hbc
    cases b with
    | nil => simp [strLe] at hab
    | cons y ys =>
      cases c with
      | nil => simp [strLe] at hbc
      | cons z zs =>
        simp only [strLe] at hab hbc ⊢
        by_cases h1 : x < y
        · by_cases h2 : y < z
          · rw [if_pos (lt_trans h1 h2)]
          · by_cases h3 : z < y
            · rw [if_neg h2, if_pos h3] at hbc
              exact absurd hbc Bool.false_ne_true
            · have hyz : y = z := le_antisymm (not_lt.1 h3) (not_lt.1 h2)
              rw [if_pos (show x < z by rw [← hyz]; exact h1)]
        · by_cases h4 : y < x
          · rw [if_neg h1, if_pos h4] at hab
            exact absurd hab Bool.false_ne_true
          · have hxy : x = y := le_antisymm (not_lt.1 h4) (not_lt.1 h1)
            rw [if_neg h1, if_neg h4] at hab
            by_cases h2 : y < z
            · rw [if_pos (show x < z by rw [hxy]; exact h2)]
            · by_cases h5 : z < y
              · rw [if_neg h2, if_pos h5] at hbc
                exact absurd hbc Bool.false_ne_true
              · have hyz : y = z := le_antisymm (not_lt.1 h5) (not_lt.1 h2)
                rw [if_neg h2, if_neg h5] at hbc
                rw [if_neg (show ¬ x < z by rw [hxy, hyz]; exact lt_irrefl z),
                  if_neg (show ¬ z < x by rw [hxy, hyz]; exact lt_irrefl z)]
                exact ih ys zs hab hbc

/-- `strLe` is total. -/
theorem strLe_total : ∀ a b : List Char, (strLe a b || strLe b a) = true := by
  intro a
  induction a with
  | nil =>
    intro b
    simp [strLe]
  | cons x xs ih =>
    intro b
    cases b with
    | nil => simp [strLe]
    | cons y ys =>
      simp only [strLe]
      rcases lt_trichotomy x y with h | h | h
      · simp [if_pos h]
      · subst h
        simp only [lt_irrefl, if_neg, if_false]
        simpa using ih ys
      · simp [if_pos h, lt_asymm h]

/-- `wav_dir + "/" + filename` determines `filename` (the directory prefix
is fixed, so distinct names give distinct paths). -/
theorem wavPath_inj (wav_dir a b : List Char)
    (h : wavPath wav_dir a = wavPath wav_dir b) : a = b := by
  unfold wavPath at h
  have h2 := List.append_cancel_left h
  simpa using h2

/-- Invariant of the per-pass orderings: every pass's ordering keeps both
lengths and carries exactly the original aligned pairs as a multiset. -/
theorem orderingAt_spec {γ : Type u} {δ : Type v} (perms : Nat → List Nat)
    (wav : List γ) (feat : List δ) (hlen : feat.length = wav.length)
    (hperms : ∀ k, (perms k).Perm (List.range wav.length)) :
    ∀ k, (orderingAt perms wav feat k).1.length = wav.length ∧
      (orderingAt perms wav feat k).2.length = feat.length ∧
      ((orderingAt perms wav feat k).1.zip
        (orderingAt perms wav feat k).2).Perm (wav.zip feat) := by
  intro k
  induction k with
  | zero =>
    have h := applyPerm_pair_spec (perms 0) wav feat hlen (hperms 0)
    exact ⟨h.1, h.2.1, h.2.2⟩
  | succ n ihn =>
    obtain ⟨h1, h2, h3⟩ := ihn
    have h := applyPerm_pair_spec (perms (n + 1))
      (orderingAt perms wav feat n).1 (orderingAt perms wav feat n).2
      (by rw [h1, h2]; exact hlen)
      (by rw [h1]; exact hperms (n + 1))
    refine ⟨?_, ?_, ?_⟩
    · show (applyPerm (perms (n + 1)) (orderingAt perms wav feat n).1).length =
        wav.length
      rw [h.1, h1]
    · show (applyPerm (perms (n + 1)) (orderingAt perms wav feat n).2).length =
        feat.length
      rw [h.2.1, h2]
    · exact h.2.2.trans h3

end WaveNetTrain

namespace WaveNetTrain

/-- C7: the Corpus Indexer (src/train.py lines 37-46) lists waveform files
in a deterministic sorted order before any shuffling (the sorted listing is
ordered under `strLe` and is a permutation of the directory listing); the
feature path is a deterministic function of the waveform path (equal
waveform paths give equal feature paths); indexing without shuffling does
not depend on the random draw at all; and a shuffled indexing carries the
same multiset of wav/feat pairs, one permutation applied identically to
both parallel lists. -/
theorem C7_corpus_indexer (wav_dir feat_dir : List Char)
    (filenames : List (List Char)) (idx : List Nat)
    (hidx : idx.Perm (List.range (filenames.mergeSort strLe).length)) :
    List.Pairwise (fun a b => strLe a b = true) (filenames.mergeSort strLe) ∧
    (filenames.mergeSort strLe).Perm filenames ∧
    (∀ i j : Nat,
        (indexCorpus wav_dir feat_dir filenames).1[i]? =
          (indexCorpus wav_dir feat_dir filenames).1[j]? →
        (indexCorpus wav_dir feat_dir filenames).2[i]? =
          (indexCorpus wav_dir feat_dir filenames).2[j]?) ∧
    (∀ idx' : List Nat,
        indexCorpusShuffled wav_dir feat_dir filenames false idx =
          indexCorpusShuffled wav_dir feat_dir filenames false idx') ∧
    ((indexCorpusShuffled wav_dir feat_dir filenames true idx).1.zip
        (indexCorpusShuffled wav_dir feat_dir filenames true idx).2).Perm
      ((indexCorpus wav_dir feat_dir filenames).1.zip
        (indexCorpus wav_dir feat_dir filenames).2) := by
  refine ⟨List.sorted_mergeSort strLe_trans strLe_total filenames,
    List.mergeSort_perm filenames strLe, ?_, ?_, ?_⟩
  · intro i j hij
    simp only [indexCorpus, List.getElem?_map] at hij ⊢
    cases hfi : (filenames.mergeSort strLe)[i]? with
    | none =>
      cases hfj : (filenames.mergeSort strLe)[j]? with
      | none => rfl
      | some b =>
        rw [hfi, hfj] at hij
        simp at hij
    | some a =>
      cases hfj : (filenames.mergeSort strLe)[j]? with
      | none =>
        rw [hfi, hfj] at hij
        simp at hij
      | some b =>
        rw [hfi, hfj] at hij
        have hab : a = b := wavPath_inj wav_dir a b (Option.some.inj hij)
        rw [hab]
  · intro idx'
    rfl
  · have hw : ((filenames.mergeSort strLe).map (featPath feat_dir)).length =
        ((filenames.mergeSort strLe).map (wavPath wav_dir)).length := by
      rw [List.length_map, List.length_map]
    have hidx' : idx.Perm (List.range
        ((filenames.mergeSort strLe).map (wavPath wav_dir)).length) := by
      rw [List.length_map]
      exact hidx
    exact (applyPerm_pair_spec idx _ _ hw hidx').2.2

/-- Witness for C7 on the two-file corpus `["b", "a"]` with directories
`"w"` and `"f"` and the shuffle draw `[1, 0]`. -/
theorem C7_corpus_indexer_witness :
    List.Pairwise (fun a b => strLe a b = true)
      ([['b'], ['a']].mergeSort strLe) ∧
    ([['b'], ['a']].mergeSort strLe).Perm [['b'], ['a']] ∧
    (∀ i j : Nat,
        (indexCorpus ['w'] ['f'] [['b'], ['a']]).1[i]? =
          (indexCorpus ['w'] ['f'] [['b'], ['a']]).1[j]? →
        (indexCorpus ['w'] ['f'] [['b'], ['a']]).2[i]? =
          (indexCorpus ['w'] ['f'] [['b'], ['a']]).2[j]?) ∧
    (∀ idx' : List Nat,
        indexCorpusShuffled ['w'] ['f'] [['b'], ['a']] false [1, 0] =
          indexCorpusShuffled ['w'] ['f'] [['b'], ['a']] false idx') ∧
    ((indexCorpusShuffled ['w'] ['f'] [['b'], ['a']] true [1, 0]).1.zip
        (indexCorpusShuffled ['w'] ['f'] [['b'], ['a']] true [1, 0]).2).Perm
      ((indexCorpus ['w'] ['f'] [['b'], ['a']]).1.zip
        (indexCorpus ['w'] ['f'] [['b'], ['a']]).2) :=
  C7_corpus_indexer ['w'] ['f'] [['b'], ['a']] [1, 0]
    (by
      rw [(List.mergeSort_perm [['b'], ['a']] strLe).length_eq]
      decide)

/-- C8: after each full pass over the corpus the generator re-shuffles with
a fresh draw from the random source: the ordering in effect during pass
`k + 1` is the fresh permutation `perms (k + 1)` — not the initial draw
`perms 0` reused — applied identically to both lists of the pass-`k`
ordering, and every pass's ordering still carries exactly the original
wav/feat pairs as a multiset, pairing preserved. -/
theorem C8_reshuffle {γ : Type u} {δ : Type v} (wav : List γ) (feat : List δ)
    (hlen : feat.length = wav.length) (perms : Nat → List Nat)
    (hperms : ∀ k, (perms k).Perm (List.range wav.length)) (k : Nat) :
    orderingAt perms wav feat (k + 1) =
      (applyPerm (perms (k + 1)) (orderingAt perms wav feat k).1,
       applyPerm (perms (k + 1)) (orderingAt perms wav feat k).2) ∧
    ((orderingAt perms wav feat (k + 1)).1.zip
        (orderingAt perms wav feat (k + 1)).2).Perm (wav.zip feat) :=
  ⟨rfl, (orderingAt_spec perms wav feat hlen hperms (k + 1)).2.2⟩

/-- Witness for C8 at pass 0 → 1 on a two-entry corpus with the constant
permutation source that always draws `[1, 0]`. -/
theorem C8_reshuffle_witness :
    orderingAt (fun _ => [1, 0]) [10, 20] [30, 40] (0 + 1) =
      (applyPerm [1, 0] (orderingAt (fun _ => [1, 0]) [10, 20] [30, 40] 0).1,
       applyPerm [1, 0] (orderingAt (fun _ => [1, 0]) [10, 20] [30, 40] 0).2) ∧
    ((orderingAt (fun _ => [1, 0]) [10, 20] [30, 40] (0 + 1)).1.zip
        (orderingAt (fun _ => [1, 0]) [10, 20] [30, 40] (0 + 1)).2).Perm
      (([10, 20] : List Nat).zip ([30, 40] : List Nat)) :=
  C8_reshuffle [10, 20] [30, 40] rfl (fun _ => [1, 0])
    (fun _ => by
      show ([1, 0] : List Nat).Perm (List.range ([10, 20] : List Nat).length)
      decide) 0

/-- C10: the feature-name derivation `filename.replace(".wav", ".h5")`
(src/train.py line 39) replaces every occurrence of the substring ".wav",
not only the trailing extension: on the file name "a.wav.wav" it produces
"a.h5.h5" (and hence so does the full feature path), not the "a.wav.h5"
that substituting only the final extension would give. -/
theorem C10_replace_all :
    featName ['a', '.', 'w', 'a', 'v', '.', 'w', 'a', 'v'] =
      ['a', '.', 'h', '5', '.', 'h', '5'] ∧
    featPath ['f'] ['a', '.', 'w', 'a', 'v', '.', 'w', 'a', 'v'] =
      ['f', '/', 'a', '.', 'h', '5', '.', 'h', '5'] ∧
    featName ['a', '.', 'w', 'a', 'v', '.', 'w', 'a', 'v'] ≠
      ['a', '.', 'w', 'a', 'v', '.', 'h', '5'] := by
  decide

end WaveNetTrain

